import Mathlib

/-!
# Model of `openwebui-sync` (`src/openwebui_watcher/cli.py`)

A shallow embedding of the reconciliation logic of the watcher script.
The script keeps one piece of state, the module-level dict
`filename_to_fileid` (line 49), and its cycle function
`scan_and_upload_changes` (lines 183-214) walks a directory, filters by
extension, selects the files whose modification time lies within the last
`interval` seconds, evicts a previously tracked remote copy keyed by the
file's basename, uploads the file and links it to the knowledge collection.

Modelling conventions:
* The filesystem walk and the clock are environment inputs: a cycle receives
  the list of walked files, each with its path and the result of
  `os.path.getmtime` (`none` when the stat raised), together with the value
  of `time.time()`.  Timestamps are modelled as integers.
* HTTP traffic goes through a `Gateway` oracle fixing, per path or file id,
  how the remote answers; every request that the script sends is recorded in
  a trace of `GatewayCall`s.
* A Python computation that can raise is embedded as `PyResult`; a
  `try/except` that logs and swallows becomes `tried`.
* The dict is an association list with unique keys, written through
  `lookupF`, `eraseF`, `insertF`.
* `.lower()` is modelled on ASCII characters via `Char.toLower`.
-/

namespace OpenWebUISync

/-- Outcome of a Python expression: a value, or a raised exception. -/
inductive PyResult (α : Type) where
  | ok (val : α)
  | exn
  deriving DecidableEq

/-- A `try/except Exception` that logs the error and falls through:
whatever happened inside, control continues normally. -/
def tried (r : PyResult Unit) : PyResult Unit :=
  match r with
  | _ => .ok ()

/-- Index of the last occurrence of `c` in `cs` (Python `str.rfind`),
`none` when `c` does not occur. -/
def rlastIdx (cs : List Char) (c : Char) : Option Nat :=
  match cs with
  | [] => none
  | x :: xs =>
    match rlastIdx xs c with
    | some j => some (j + 1)
    | none => if x = c then some 0 else none

/-- `os.path.basename`: the text after the last `/` (used at line 80 for the
logged upload command and at line 201 for the duplicate key). -/
def basename (p : String) : String :=
  match rlastIdx p.data '/' with
  | none => p
  | some i => String.mk (p.data.drop (i + 1))

/-- Line 142: `os.path.splitext(file_path)[1][1:].lower()`.  `splitext`
(CPython `genericpath._splitext` with `sep = '/'`, `extsep = '.'`) finds the
last dot; the name splits there only when that dot lies after the last slash
and at least one character strictly between the start of the last component
and the dot is not itself a dot (so `.txt` and `..txt` have no extension).
The `[1:]` strips the leading dot of the `splitext` tail. -/
def splitext_ext (p : String) : String :=
  let cs := p.data
  match rlastIdx cs '.' with
  | none => ""
  | some d =>
    let s : Nat :=
      match rlastIdx cs '/' with
      | none => 0
      | some si => si + 1
    if s ≤ d ∧ ((cs.drop s).take (d - s)).any (fun c => decide (c ≠ '.')) = true then
      String.mk ((cs.drop (d + 1)).map Char.toLower)
    else ""

/-- Lines 139-143: with no configured allow-list (`ALLOWED_EXTS is None`)
every file passes; otherwise the `splitext` extension must be a member. -/
def has_allowed_extension (exts : Option (List String)) (p : String) : Bool :=
  match exts with
  | none => true
  | some l => decide (splitext_ext p ∈ l)

/-- Lines 31-36: parsing of the `ALLOWED_FILE_EXTENSIONS` environment value.
An empty string leaves `ALLOWED_EXTS = None`; otherwise the value is split
on commas, blank items are dropped, and the rest are stripped and
lowercased.  Note `","` parses to `some []`, which rejects every file. -/
def parse_allowed_exts (s : String) : Option (List String) :=
  if s = "" then none
  else some (((s.splitOn ",").filter (fun e => decide (e.trim ≠ ""))).map
    (fun e => e.trim.toLower))

/-- The module-level dict `filename_to_fileid` (line 49): basename of the
uploaded file to the remote file id, as an association list. -/
abbrev FMap := List (String × String)

/-- Dict lookup. -/
def lookupF : FMap → String → Option String
  | [], _ => none
  | q :: qs, k => if q.1 = k then some q.2 else lookupF qs k

/-- Dict deletion (`del`): every binding of the key goes. -/
def eraseF : FMap → String → FMap
  | [], _ => []
  | q :: qs, k => if q.1 = k then eraseF qs k else q :: eraseF qs k

/-- Dict assignment: bind `k` to `v`, dropping any previous binding. -/
def insertF (m : FMap) (k v : String) : FMap :=
  (k, v) :: eraseF m k

/-- One HTTP request the script can send. -/
inductive GatewayCall where
  | upload (path : String)
  | addToKnowledge (fileId : String)
  | removeFromKnowledge (fileId : String)
  | deleteFile (fileId : String)
  deriving DecidableEq

/-- How the upload endpoint answers for one file.
`openError`: `open(file_path)` raised, no request was sent.
`httpError`: transport failure or non-2xx status, so `raise_for_status`
raises.  `ok`: a 2xx response whose JSON body carries the two probed id
fields, `resp_json.get("id")` and `resp_json.get("data", {}).get("id")`. -/
inductive UploadHttp where
  | openError
  | httpError
  | ok (topId : Option String) (dataId : Option String)
  deriving DecidableEq

/-- The remote side, fixed for one cycle: the upload answer per path, and
per file id whether add / remove / delete requests come back 2xx. -/
structure Gateway where
  uploadResp : String → UploadHttp
  addOk : String → Bool
  removeOk : String → Bool
  deleteOk : String → Bool

/-- Python truthiness of an optional string (`None` and `""` are falsy). -/
def truthyStr : Option String → Bool
  | none => false
  | some s => decide (s ≠ "")

/-- Lines 112-115: `resp_json.get("id") or resp_json.get("data", {}).get("id")`
followed by `if not file_id: return None`. -/
def upload_extract_id (topId dataId : Option String) : Option String :=
  let fid := if truthyStr topId then topId else dataId
  if truthyStr fid then fid else none

/-- Lines 90-117, `upload_file`: post the bytes; a raise inside propagates to
the caller; on 2xx return the extracted id, which may be `none`. -/
def upload_file (g : Gateway) (path : String) : PyResult (Option String) :=
  match g.uploadResp path with
  | .openError => .exn
  | .httpError => .exn
  | .ok t d => .ok (upload_extract_id t d)

/-- Lines 146-154: the unlink request with `raise_for_status` inside a
`try/except` that logs and swallows, so the caller always continues. -/
def remove_file_from_knowledge (g : Gateway) (fid : String) : PyResult Unit :=
  tried (if g.removeOk fid then .ok () else .exn)

/-- Lines 156-163: the delete request, likewise swallowing its errors. -/
def delete_file_from_system (g : Gateway) (fid : String) : PyResult Unit :=
  tried (if g.deleteOk fid then .ok () else .exn)

/-- Lines 51-63, `fetch_knowledge_files`: fold the remote listing's
`(filename, id)` pairs into the dict.  No call site exists in `cli.py`:
neither `main` (lines 216-221) nor module initialisation invokes it. -/
def fetch_knowledge_files (listing : List (String × String)) (m : FMap) : FMap :=
  listing.foldl (fun acc q => insertF acc q.1 q.2) m

/-- One file reported by the `os.walk` traversal: its joined path and the
result of `os.path.getmtime` (`none` when the stat raised, lines 192-196). -/
structure FileEntry where
  path : String
  mtime : Option Int
  deriving DecidableEq

/-- Lines 208-212 (the tail of the per-file `try` block): upload the file;
when an id came back, link it and commit the id under the basename; a raise
from `upload_file` or `add_file_to_knowledge` is caught by the outer
`except` at line 213, leaving the dict as it stands. -/
def upload_and_record (g : Gateway) (m : FMap) (tr : List GatewayCall)
    (base fpath : String) : FMap × List GatewayCall :=
  match g.uploadResp fpath with
  | .openError => (m, tr)
  | .httpError => (m, tr ++ [.upload fpath])
  | .ok t d =>
    match upload_extract_id t d with
    | none => (m, tr ++ [.upload fpath])
    | some fid =>
      if g.addOk fid then (insertF m base fid, tr ++ [.upload fpath, .addToKnowledge fid])
      else (m, tr ++ [.upload fpath, .addToKnowledge fid])

/-- The calls `upload_and_record` sends, as a function of the remote's
answer: the upload request goes out unless `open` failed, and the link
request goes out exactly when an id came back.  (Statement abbreviation.) -/
def upload_calls (g : Gateway) (fpath : String) : List GatewayCall :=
  match g.uploadResp fpath with
  | .openError => []
  | .httpError => [.upload fpath]
  | .ok t d =>
    match upload_extract_id t d with
    | none => [.upload fpath]
    | some fid => [.upload fpath, .addToKnowledge fid]

/-- The calls the duplicate eviction of lines 200-206 sends: unlink and
delete of the tracked id when the basename is bound, nothing otherwise.
(Statement abbreviation.) -/
def evict_calls (m : FMap) (base : String) : List GatewayCall :=
  match lookupF m base with
  | some oldId => [.removeFromKnowledge oldId, .deleteFile oldId]
  | none => []

/-- Lines 188-214, the body of the inner walk loop for one file: extension
filter, stat, the `mtime >= cutoff` window test, then inside `try`: the
duplicate eviction of lines 200-206 (whose two requests swallow their own
errors, after which `del` always runs) followed by upload-and-link. -/
def process_one_file (g : Gateway) (exts : Option (List String)) (cutoff : Int)
    (st : FMap × List GatewayCall) (f : FileEntry) : FMap × List GatewayCall :=
  if has_allowed_extension exts f.path = false then st
  else
    match f.mtime with
    | none => st
    | some mt =>
      if cutoff ≤ mt then
        let base := basename f.path
        match lookupF st.1 base with
        | some oldId =>
          match remove_file_from_knowledge g oldId with
          | .exn => (st.1, st.2 ++ [.removeFromKnowledge oldId])
          | .ok _ =>
            match delete_file_from_system g oldId with
            | .exn => (st.1, st.2 ++ [.removeFromKnowledge oldId, .deleteFile oldId])
            | .ok _ =>
              upload_and_record g (eraseF st.1 base)
                (st.2 ++ [.removeFromKnowledge oldId, .deleteFile oldId]) base f.path
        | none => upload_and_record g st.1 st.2 base f.path
      else st

/-- Lines 183-214, `scan_and_upload_changes`: `cutoff = now - interval`,
then the walk loop over every reported file. -/
def scan_and_upload_changes (g : Gateway) (exts : Option (List String))
    (now interval : Int) (files : List FileEntry) (st : FMap × List GatewayCall) :
    FMap × List GatewayCall :=
  let cutoff := now - interval
  files.foldl (process_one_file g exts cutoff) st

/-- The state a process starts from: the dict of line 49 is initialised
empty, and nothing later reads any persisted state. -/
def process_start_state : FMap × List GatewayCall := ([], [])

/-- One iteration of `main`'s loop (lines 219-221): a scan with the
hard-coded `interval = 6`, at the clock reading and walk result of that
iteration. -/
def run_cycle (g : Gateway) (exts : Option (List String))
    (st : FMap × List GatewayCall) (c : Int × List FileEntry) :
    FMap × List GatewayCall :=
  scan_and_upload_changes g exts c.1 6 c.2 st

/-- Lines 216-221, `main`: enter the loop directly from the empty dict —
`fetch_knowledge_files` is never called, and no ledger is loaded from or
written to disk anywhere in `cli.py`.  `cycles` lists the clock reading and
walk result of each iteration run so far. -/
def main_run (g : Gateway) (exts : Option (List String))
    (cycles : List (Int × List FileEntry)) : FMap × List GatewayCall :=
  cycles.foldl (run_cycle g exts) process_start_state

/-- Lines 77-88 with lines 90-97: the remote display name of an upload is
`os.path.basename(file_path)` — explicitly so in the logged curl command
(line 80), and equally for the real request, where `requests` derives the
multipart filename from the basename of the opened file's `.name`. -/
def display_name (p : String) : String := basename p

/-- The last path component: the text after the last `/`. -/
def lastComponent (cs : List Char) : List Char :=
  (cs.reverse.takeWhile (fun c => decide (c ≠ '/'))).reverse

/-- The text after the last `.` of a component. -/
def afterLastDot (bs : List Char) : List Char :=
  (bs.reverse.takeWhile (fun c => decide (c ≠ '.'))).reverse

/-- The extension in the words of the specification: the lowercased text
after the final dot of the last path component, and the empty string when
that component has no dot. -/
def spec_extension (p : String) : String :=
  let bs := lastComponent p.data
  if '.' ∈ bs then String.mk ((afterLastDot bs).map Char.toLower) else ""

/-- The specification's extension amended to `splitext` behaviour: as
`spec_extension`, except that a component whose characters before the final
dot are all dots (`.txt`, `..txt`, `...`) has the empty extension. -/
def spec_extension_amended (p : String) : String :=
  let bs := lastComponent p.data
  if '.' ∈ bs then
    let aft := afterLastDot bs
    let bef := bs.take (bs.length - aft.length - 1)
    if bef.all (fun c => decide (c = '.')) then ""
    else String.mk (aft.map Char.toLower)
  else ""

/-- A remote that accepts everything and hands out the id `id1`. -/
def gw_ok : Gateway :=
  ⟨fun _ => .ok (some "id1") none, fun _ => true, fun _ => true, fun _ => true⟩

/-- A remote whose upload endpoint rejects every request. -/
def gw_reject : Gateway :=
  ⟨fun _ => .httpError, fun _ => true, fun _ => true, fun _ => true⟩

/-- A remote that rejects uploads and also fails every unlink and delete. -/
def gw_all_fail : Gateway :=
  ⟨fun _ => .httpError, fun _ => false, fun _ => false, fun _ => false⟩

/-- A remote answering 2xx to uploads with a body carrying no id at all. -/
def gw_no_id : Gateway :=
  ⟨fun _ => .ok none none, fun _ => true, fun _ => true, fun _ => true⟩

/-- A remote that rejects the upload of `d/b.txt` and accepts everything
else, handing out a distinct id per path. -/
def gw_mid_reject : Gateway :=
  ⟨fun p => if p = "d/b.txt" then .httpError else .ok (some (String.append "id_" p)) none,
   fun _ => true, fun _ => true, fun _ => true⟩

/-! ## Dictionary lemmas -/

theorem lookupF_eraseF_self (m : FMap) (b : String) : lookupF (eraseF m b) b = none := by
  induction m with
  | nil => rfl
  | cons q qs ih =>
    by_cases h : q.1 = b
    · simp [eraseF, h, ih]
    · simp [eraseF, h, lookupF, ih]

theorem lookupF_eraseF_ne (m : FMap) (b k : String) (h : k ≠ b) :
    lookupF (eraseF m b) k = lookupF m k := by
  induction m with
  | nil => rfl
  | cons q qs ih =>
    by_cases hq : q.1 = b
    · have hbk : b ≠ k := fun hk => h hk.symm
      simp [eraseF, hq, lookupF, hbk, ih]
    · simp [eraseF, hq, lookupF, ih]

theorem eraseF_eraseF (m : FMap) (b : String) : eraseF (eraseF m b) b = eraseF m b := by
  induction m with
  | nil => rfl
  | cons q qs ih =>
    by_cases h : q.1 = b
    · simp [eraseF, h, ih]
    · simp [eraseF, h, ih]

theorem eraseF_of_lookupF_none (m : FMap) (b : String) (h : lookupF m b = none) :
    eraseF m b = m := by
  induction m with
  | nil => rfl
  | cons q qs ih =>
    by_cases hq : q.1 = b
    · simp [lookupF, hq] at h
    · simp [lookupF, hq] at h
      simp [eraseF, hq, ih h]

theorem insertF_eraseF (m : FMap) (b v : String) :
    insertF (eraseF m b) b v = insertF m b v := by
  simp [insertF, eraseF_eraseF]

theorem lookupF_insertF_self (m : FMap) (k v : String) :
    lookupF (insertF m k v) k = some v := by
  simp [insertF, lookupF]

theorem lookupF_insertF_ne (m : FMap) (k v b : String) (h : b ≠ k) :
    lookupF (insertF m k v) b = lookupF m b := by
  have : k ≠ b := fun hk => h hk.symm
  simp [insertF, lookupF, this, lookupF_eraseF_ne m k b h]

/-! ## Per-file transition lemmas -/

theorem upload_and_record_fst (g : Gateway) (m : FMap) (tr : List GatewayCall)
    (base fpath : String) :
    (upload_and_record g m tr base fpath).1 =
      match g.uploadResp fpath with
      | .ok t d =>
        match upload_extract_id t d with
        | some fid => if g.addOk fid then insertF m base fid else m
        | none => m
      | _ => m := by
  unfold upload_and_record
  rcases hu : g.uploadResp fpath with _ | _ | ⟨t, d⟩
  · simp [hu]
  · simp [hu]
  · simp only [hu]
    rcases he : upload_extract_id t d with _ | fid
    · simp [he]
    · by_cases h : g.addOk fid
      · simp [he, h]
      · simp [he, h]

theorem upload_and_record_snd (g : Gateway) (m : FMap) (tr : List GatewayCall)
    (base fpath : String) :
    (upload_and_record g m tr base fpath).2 = tr ++ upload_calls g fpath := by
  unfold upload_and_record upload_calls
  rcases hu : g.uploadResp fpath with _ | _ | ⟨t, d⟩
  · simp [hu]
  · simp [hu]
  · simp only [hu]
    rcases he : upload_extract_id t d with _ | fid
    · simp [he]
    · by_cases h : g.addOk fid
      · simp [he, h]
      · simp [he, h]

theorem process_skip_stale (g : Gateway) (exts : Option (List String)) (cutoff : Int)
    (st : FMap × List GatewayCall) (f : FileEntry)
    (h : ∀ mt : Int, f.mtime = some mt → mt < cutoff) :
    process_one_file g exts cutoff st f = st := by
  unfold process_one_file
  by_cases hb : has_allowed_extension exts f.path = false
  · simp [hb]
  · rw [if_neg hb]
    cases hm : f.mtime with
    | none => rfl
    | some mt =>
      have hlt := h mt hm
      simp [show ¬ cutoff ≤ mt from not_le.mpr hlt]

theorem process_eligible_eq (g : Gateway) (exts : Option (List String)) (cutoff : Int)
    (st : FMap × List GatewayCall) (f : FileEntry) (mt : Int)
    (hext : has_allowed_extension exts f.path = true) (hmt : f.mtime = some mt)
    (hcut : cutoff ≤ mt) :
    process_one_file g exts cutoff st f =
      match lookupF st.1 (basename f.path) with
      | some oldId =>
        upload_and_record g (eraseF st.1 (basename f.path))
          (st.2 ++ [.removeFromKnowledge oldId, .deleteFile oldId]) (basename f.path) f.path
      | none => upload_and_record g st.1 st.2 (basename f.path) f.path := by
  unfold process_one_file
  rw [hmt]
  simp [hext, hcut, remove_file_from_knowledge, delete_file_from_system, tried]

theorem process_fst_char (g : Gateway) (exts : Option (List String)) (cutoff : Int)
    (st : FMap × List GatewayCall) (f : FileEntry) (mt : Int)
    (hext : has_allowed_extension exts f.path = true) (hmt : f.mtime = some mt)
    (hcut : cutoff ≤ mt) :
    (process_one_file g exts cutoff st f).1 =
      match g.uploadResp f.path with
      | .ok t d =>
        match upload_extract_id t d with
        | some fid =>
          if g.addOk fid then insertF st.1 (basename f.path) fid
          else eraseF st.1 (basename f.path)
        | none => eraseF st.1 (basename f.path)
      | _ => eraseF st.1 (basename f.path) := by
  rw [process_eligible_eq g exts cutoff st f mt hext hmt hcut]
  rcases hl : lookupF st.1 (basename f.path) with _ | oldId
  · simp only [upload_and_record_fst, eraseF_of_lookupF_none st.1 (basename f.path) hl]
  · simp only [upload_and_record_fst]
    rcases hu : g.uploadResp f.path with _ | _ | ⟨t, d⟩
    · simp [hu]
    · simp [hu]
    · simp only [hu]
      rcases he : upload_extract_id t d with _ | fid
      · simp [he]
      · by_cases h : g.addOk fid
        · simp [he, h, insertF_eraseF]
        · simp [he, h]

theorem process_snd_char (g : Gateway) (exts : Option (List String)) (cutoff : Int)
    (st : FMap × List GatewayCall) (f : FileEntry) (mt : Int)
    (hext : has_allowed_extension exts f.path = true) (hmt : f.mtime = some mt)
    (hcut : cutoff ≤ mt) :
    (process_one_file g exts cutoff st f).2 =
      st.2 ++ evict_calls st.1 (basename f.path) ++ upload_calls g f.path := by
  rw [process_eligible_eq g exts cutoff st f mt hext hmt hcut]
  unfold evict_calls
  rcases hl : lookupF st.1 (basename f.path) with _ | oldId
  · simp [upload_and_record_snd]
  · simp [upload_and_record_snd]

theorem process_fail_fst (g : Gateway) (exts : Option (List String)) (cutoff : Int)
    (st : FMap × List GatewayCall) (f : FileEntry) (mt : Int)
    (hext : has_allowed_extension exts f.path = true) (hmt : f.mtime = some mt)
    (hcut : cutoff ≤ mt)
    (hfail : g.uploadResp f.path = .httpError ∨
      ∃ t d fid, g.uploadResp f.path = .ok t d ∧ upload_extract_id t d = some fid ∧
        g.addOk fid = false) :
    (process_one_file g exts cutoff st f).1 = eraseF st.1 (basename f.path) := by
  rw [process_fst_char g exts cutoff st f mt hext hmt hcut]
  rcases hfail with h | ⟨t, d, fid, h1, h2, h3⟩
  · rw [h]
  · rw [h1]
    simp [h2, h3]

/-! ## Claim C1 — change detection and idempotence -/

/-- Claim C1 is false as stated: the script keeps no fingerprint ledger, it
re-processes every file whose mtime lies within the `interval` window.  At
this concrete input the file `d/x.txt` (mtime 10) is unchanged between a
cycle at time 12 and the next at time 15, yet the second cycle performs four
gateway calls — it unlinks and deletes the previously uploaded copy,
re-uploads and re-links — instead of zero. -/
theorem c1_counterexample :
    (scan_and_upload_changes gw_ok none 15 6 [⟨"d/x.txt", some 10⟩]
        ((scan_and_upload_changes gw_ok none 12 6 [⟨"d/x.txt", some 10⟩] ([], [])).1, [])).2
      = [.removeFromKnowledge "id1", .deleteFile "id1", .upload "d/x.txt",
         .addToKnowledge "id1"]
    ∧ (scan_and_upload_changes gw_ok none 15 6 [⟨"d/x.txt", some 10⟩]
        ((scan_and_upload_changes gw_ok none 12 6 [⟨"d/x.txt", some 10⟩] ([], [])).1, [])).2
      ≠ [] := by
  decide

/-- Claim C1, amended: a cycle performs zero gateway calls — and leaves the
dict untouched — when every walked file's mtime is older than
`now - interval`; change detection is this time window, not a recorded
fingerprint, so a second run is call-free only once the window has passed. -/
theorem c1_stale_cycle_no_calls (g : Gateway) (exts : Option (List String))
    (now interval : Int) (files : List FileEntry) (st : FMap × List GatewayCall)
    (h : files.all (fun f =>
      match f.mtime with
      | none => true
      | some mt => decide (mt < now - interval)) = true) :
    scan_and_upload_changes g exts now interval files st = st := by
  have main : ∀ (fs : List FileEntry) (st : FMap × List GatewayCall),
      fs.all (fun f =>
        match f.mtime with
        | none => true
        | some mt => decide (mt < now - interval)) = true →
      fs.foldl (process_one_file g exts (now - interval)) st = st := by
    intro fs
    induction fs with
    | nil => intro st _; rfl
    | cons f fs ih =>
      intro st hh
      rw [List.all_cons, Bool.and_eq_true] at hh
      have hstale : ∀ mt : Int, f.mtime = some mt → mt < now - interval := by
        intro mt hmt
        have h1 := hh.1
        rw [hmt] at h1
        exact of_decide_eq_true h1
      rw [List.foldl_cons, process_skip_stale g exts (now - interval) st f hstale]
      exact ih st hh.2
  simpa [scan_and_upload_changes] using main files st h

/-- Witness for `c1_stale_cycle_no_calls` at a concrete input: a tracked,
long-unmodified file produces a cycle with zero gateway calls. -/
theorem c1_witness :
    ([⟨"d/x.txt", some 10⟩] : List FileEntry).all (fun f =>
      match f.mtime with
      | none => true
      | some mt => decide (mt < (30 : Int) - 6)) = true
    ∧ scan_and_upload_changes gw_ok none 30 6 [⟨"d/x.txt", some 10⟩]
        ([("x.txt", "id1")], []) = ([("x.txt", "id1")], []) :=
  ⟨by decide, c1_stale_cycle_no_calls gw_ok none 30 6 [⟨"d/x.txt", some 10⟩]
      ([("x.txt", "id1")], []) (by decide)⟩

/-! ## Claim C2 — ledger mutation vs. remote success -/

/-- Claim C2 is false as stated: when the upload of `d/x.txt` is rejected,
the pre-existing mapping for its basename is not "exactly what it was":
the eviction of lines 200-206 had already deleted it before the upload was
attempted, and nothing restores it. -/
theorem c2_counterexample :
    upload_file gw_reject "d/x.txt" = .exn
    ∧ (scan_and_upload_changes gw_reject none 12 6 [⟨"d/x.txt", some 10⟩]
        ([("x.txt", "old")], [])).1 = []
    ∧ ([] : FMap) ≠ [("x.txt", "old")] := by
  decide

/-- Claim C2, amended: a new mapping for a file commits only when both
upload and link succeeded; on any failure no mapping is inserted — but any
pre-existing binding of the file's basename has been erased before the
upload, so the failure case leaves `eraseF` of the old dict, not the old
dict itself. -/
theorem c2_commit_only_on_success (g : Gateway) (exts : Option (List String))
    (cutoff : Int) (st : FMap × List GatewayCall) (f : FileEntry) (mt : Int)
    (hext : has_allowed_extension exts f.path = true) (hmt : f.mtime = some mt)
    (hcut : cutoff ≤ mt) :
    (process_one_file g exts cutoff st f).1 =
      match g.uploadResp f.path with
      | .ok t d =>
        match upload_extract_id t d with
        | some fid =>
          if g.addOk fid then insertF st.1 (basename f.path) fid
          else eraseF st.1 (basename f.path)
        | none => eraseF st.1 (basename f.path)
      | _ => eraseF st.1 (basename f.path) :=
  process_fst_char g exts cutoff st f mt hext hmt hcut

/-- Witness for `c2_commit_only_on_success`: the rejected upload leaves the
dict equal to the eviction result (here, empty). -/
theorem c2_witness :
    has_allowed_extension none "d/x.txt" = true
    ∧ ((6 : Int) ≤ 10)
    ∧ (process_one_file gw_reject none 6 ([("x.txt", "old")], [])
        ⟨"d/x.txt", some 10⟩).1 = [] := by
  refine ⟨by decide, by decide, ?_⟩
  rw [c2_commit_only_on_success gw_reject none 6 ([("x.txt", "old")], [])
      ⟨"d/x.txt", some 10⟩ 10 (by decide) rfl (by decide)]
  decide

/-! ## Claim C3 — when eviction precedes upload -/

/-- Claim C3 is false as stated: the dict records no local path, only the
basename, so eviction is not limited to entries "under a different local
path".  Here the first cycle uploads `d/x.txt` and records its id; the
second cycle re-processes the very same path, and the trace shows the
unlink and delete of that same entry before the new upload. -/
theorem c3_counterexample :
    (scan_and_upload_changes gw_ok none 12 6 [⟨"d/x.txt", some 10⟩] ([], [])).1
      = [("x.txt", "id1")]
    ∧ (scan_and_upload_changes gw_ok none 15 6 [⟨"d/x.txt", some 10⟩]
        ([("x.txt", "id1")], [])).2
      = [.removeFromKnowledge "id1", .deleteFile "id1", .upload "d/x.txt",
         .addToKnowledge "id1"] := by
  decide

/-- Claim C3, amended: for an eligible file, the cycle's calls are the
eviction calls, then the upload, then the link; and the eviction is empty
exactly when the basename is untracked — the local path that produced the
tracked entry plays no role. -/
theorem c3_evict_iff_basename_tracked (g : Gateway) (exts : Option (List String))
    (cutoff : Int) (st : FMap × List GatewayCall) (f : FileEntry) (mt : Int)
    (hext : has_allowed_extension exts f.path = true) (hmt : f.mtime = some mt)
    (hcut : cutoff ≤ mt) :
    (process_one_file g exts cutoff st f).2
      = st.2 ++ evict_calls st.1 (basename f.path) ++ upload_calls g f.path
    ∧ (evict_calls st.1 (basename f.path) = [] ↔
        lookupF st.1 (basename f.path) = none) := by
  refine ⟨process_snd_char g exts cutoff st f mt hext hmt hcut, ?_⟩
  unfold evict_calls
  rcases lookupF st.1 (basename f.path) with _ | oldId <;> simp

/-- Witness for `c3_evict_iff_basename_tracked`: with `x.txt` tracked, the
trace is unlink, delete, upload, link — eviction strictly before upload. -/
theorem c3_witness :
    has_allowed_extension none "d/x.txt" = true ∧ ((6 : Int) ≤ 10)
    ∧ (process_one_file gw_ok none 6 ([("x.txt", "id0")], [])
        ⟨"d/x.txt", some 10⟩).2
      = [.removeFromKnowledge "id0", .deleteFile "id0", .upload "d/x.txt",
         .addToKnowledge "id1"] := by
  refine ⟨by decide, by decide, ?_⟩
  have h := c3_evict_iff_basename_tracked gw_ok none 6 ([("x.txt", "id0")], [])
      ⟨"d/x.txt", some 10⟩ 10 (by decide) rfl (by decide)
  rw [h.1]
  decide

/-! ## Claim C4 — per-file failure isolation -/

/-- Claim C4: one file's rejected transition does not stop the cycle.  The
cycle over `xs ++ f :: ys` equals the cycle over `ys` started from the state
reached after `xs` and the failing `f`; the failing file ends the cycle with
no binding for its basename; and no other basename's binding is touched by
the failing step.  (The spec scenario — three files, second rejected — is
the witness.) -/
theorem c4_failure_isolated (g : Gateway) (exts : Option (List String))
    (now interval : Int) (xs ys : List FileEntry) (f : FileEntry)
    (st : FMap × List GatewayCall) (mt : Int)
    (hext : has_allowed_extension exts f.path = true) (hmt : f.mtime = some mt)
    (hcut : now - interval ≤ mt)
    (hfail : g.uploadResp f.path = .httpError ∨
      ∃ t d fid, g.uploadResp f.path = .ok t d ∧ upload_extract_id t d = some fid ∧
        g.addOk fid = false) :
    scan_and_upload_changes g exts now interval (xs ++ f :: ys) st
      = scan_and_upload_changes g exts now interval ys
          (process_one_file g exts (now - interval)
            (scan_and_upload_changes g exts now interval xs st) f)
    ∧ lookupF (process_one_file g exts (now - interval)
          (scan_and_upload_changes g exts now interval xs st) f).1 (basename f.path)
        = none
    ∧ ∀ b, b ≠ basename f.path →
        lookupF (process_one_file g exts (now - interval)
            (scan_and_upload_changes g exts now interval xs st) f).1 b
          = lookupF (scan_and_upload_changes g exts now interval xs st).1 b := by
  refine ⟨?_, ?_, ?_⟩
  · simp [scan_and_upload_changes, List.foldl_append]
  · rw [process_fail_fst g exts (now - interval) _ f mt hext hmt hcut hfail]
    exact lookupF_eraseF_self _ _
  · intro b hb
    rw [process_fail_fst g exts (now - interval) _ f mt hext hmt hcut hfail]
    exact lookupF_eraseF_ne _ _ _ hb

/-- Witness for `c4_failure_isolated`: second of three files rejected. -/
theorem c4_witness :
    gw_mid_reject.uploadResp "d/b.txt" = .httpError
    ∧ lookupF (process_one_file gw_mid_reject none (12 - 6)
        (scan_and_upload_changes gw_mid_reject none 12 6 [⟨"d/a.txt", some 10⟩]
          ([], [])) ⟨"d/b.txt", some 10⟩).1 (basename "d/b.txt") = none :=
  ⟨by decide,
    (c4_failure_isolated gw_mid_reject none 12 6 [⟨"d/a.txt", some 10⟩]
      [⟨"d/c.txt", some 10⟩] ⟨"d/b.txt", some 10⟩ ([], []) 10 (by decide) rfl
      (by decide) (Or.inl (by decide))).2.1⟩

/-! ## Claim C5 — remote display names -/

/-- Claim C5 is false as stated: the display name sent with an upload is the
file's basename, so the two distinct paths `a/x.txt` and `b/x.txt` receive
the same display name `x.txt`, not different ones. -/
theorem c5_counterexample :
    display_name "a/x.txt" = "x.txt" ∧ display_name "b/x.txt" = "x.txt"
    ∧ ("a/x.txt" : String) ≠ "b/x.txt" := by
  decide

/-- Claim C5, amended: uploads of two local paths with the same basename are
assigned the same remote display name — no collision-avoiding resolver
exists; the script instead relies on basename-keyed eviction. -/
theorem c5_same_basename_same_display_name (p q : String)
    (h : basename p = basename q) : display_name p = display_name q := h

/-- Witness for `c5_same_basename_same_display_name` on `a/x.txt`, `b/x.txt`. -/
theorem c5_witness :
    basename "a/x.txt" = basename "b/x.txt"
    ∧ display_name "a/x.txt" = display_name "b/x.txt" :=
  ⟨by decide, c5_same_basename_same_display_name "a/x.txt" "b/x.txt" (by decide)⟩

/-! ## Claim C6 — startup seeding of the basename index -/

/-- Claim C6: `fetch_knowledge_files` would indeed map each listed
`(filename, id)` pair into the dict — but `main` never calls it.  A process
whose remote listing holds `("x.txt", "oldId")` therefore starts its first
cycle with the empty dict: processing `d/x.txt` issues only upload and link,
with no unlink of the stale remote copy `oldId`. -/
theorem c6_startup_index_not_seeded :
    fetch_knowledge_files [("x.txt", "oldId")] [] = [("x.txt", "oldId")]
    ∧ (main_run gw_ok none [(12, [⟨"d/x.txt", some 10⟩])]).2
        = [.upload "d/x.txt", .addToKnowledge "id1"]
    ∧ GatewayCall.removeFromKnowledge "oldId" ∉
        (main_run gw_ok none [(12, [⟨"d/x.txt", some 10⟩])]).2 := by
  decide

/-! ## Claim C7 — durability of the ledger -/

/-- Claim C7 is false as stated: there is no persisted ledger.  A process
run that committed `x.txt` ends with that binding in memory, but a freshly
started process begins from the empty dict — nothing was written to or read
from disk, so the binding is gone. -/
theorem c7_counterexample :
    (main_run gw_ok none [(12, [⟨"d/x.txt", some 10⟩])]).1 = [("x.txt", "id1")]
    ∧ main_run gw_ok none [] = ([], [])
    ∧ lookupF (main_run gw_ok none []).1 "x.txt" = none := by
  decide

/-- Claim C7, amended: the dict is held in memory across the cycles of one
process — later cycles continue from the state earlier cycles produced —
but every process start begins from the empty state; `cli.py` contains no
load or save of it. -/
theorem c7_state_in_memory_only (g : Gateway) (exts : Option (List String))
    (cs cs' : List (Int × List FileEntry)) :
    main_run g exts (cs ++ cs') = cs'.foldl (run_cycle g exts) (main_run g exts cs)
    ∧ main_run g exts [] = process_start_state
    ∧ process_start_state = (([] : FMap), ([] : List GatewayCall)) := by
  refine ⟨?_, rfl, rfl⟩
  simp [main_run, List.foldl_append]

/-! ## Claim C9 — 2xx upload response without a file id -/

/-- Claim C9: a 2xx upload response carrying neither a top-level id nor one
under `data` makes `upload_file` return `None` rather than raise; the caller
then sends no link request for this file and commits no binding for its
basename. -/
theorem c9_upload_ok_without_id (g : Gateway) (exts : Option (List String))
    (cutoff : Int) (st : FMap × List GatewayCall) (f : FileEntry) (mt : Int)
    (hext : has_allowed_extension exts f.path = true) (hmt : f.mtime = some mt)
    (hcut : cutoff ≤ mt) (hresp : g.uploadResp f.path = .ok none none) :
    upload_file g f.path = .ok none
    ∧ (process_one_file g exts cutoff st f).2
        = st.2 ++ evict_calls st.1 (basename f.path) ++ [.upload f.path]
    ∧ (∀ fid, GatewayCall.addToKnowledge fid ∉
        evict_calls st.1 (basename f.path) ++ [.upload f.path])
    ∧ lookupF (process_one_file g exts cutoff st f).1 (basename f.path) = none := by
  have hcalls : upload_calls g f.path = [.upload f.path] := by
    unfold upload_calls
    rw [hresp]
    rfl
  refine ⟨?_, ?_, ?_, ?_⟩
  · unfold upload_file
    rw [hresp]
    rfl
  · rw [process_snd_char g exts cutoff st f mt hext hmt hcut, hcalls]
  · intro fid
    unfold evict_calls
    rcases lookupF st.1 (basename f.path) with _ | oldId <;> simp
  · rw [process_fst_char g exts cutoff st f mt hext hmt hcut, hresp]
    exact lookupF_eraseF_self st.1 (basename f.path)

/-- Witness for `c9_upload_ok_without_id` against `gw_no_id`. -/
theorem c9_witness :
    gw_no_id.uploadResp "d/x.txt" = .ok none none
    ∧ upload_file gw_no_id "d/x.txt" = .ok none
    ∧ lookupF (process_one_file gw_no_id none 6 ([], []) ⟨"d/x.txt", some 10⟩).1
        (basename "d/x.txt") = none := by
  have h := c9_upload_ok_without_id gw_no_id none 6 ([], []) ⟨"d/x.txt", some 10⟩ 10
      (by decide) rfl (by decide) (by decide)
  exact ⟨by decide, h.1, h.2.2.2⟩

/-! ## Claim C10 — unconditional eviction -/

/-- Claim C10: the unlink and delete requests swallow their own errors, so
once eviction begins the tracked binding is removed no matter how the remote
answered both calls; with the subsequent upload also rejected, the basename
ends the cycle untracked even though every remote call failed. -/
theorem c10_eviction_survives_remote_failures (g : Gateway)
    (exts : Option (List String)) (cutoff : Int) (st : FMap × List GatewayCall)
    (f : FileEntry) (mt : Int) (oldId : String)
    (hext : has_allowed_extension exts f.path = true) (hmt : f.mtime = some mt)
    (hcut : cutoff ≤ mt)
    (hold : lookupF st.1 (basename f.path) = some oldId)
    (hrm : g.removeOk oldId = false) (hdel : g.deleteOk oldId = false)
    (hup : g.uploadResp f.path = .httpError) :
    remove_file_from_knowledge g oldId = .ok ()
    ∧ delete_file_from_system g oldId = .ok ()
    ∧ (process_one_file g exts cutoff st f).2
        = st.2 ++ [.removeFromKnowledge oldId, .deleteFile oldId, .upload f.path]
    ∧ lookupF (process_one_file g exts cutoff st f).1 (basename f.path) = none := by
  refine ⟨rfl, rfl, ?_, ?_⟩
  · rw [process_snd_char g exts cutoff st f mt hext hmt hcut]
    unfold evict_calls upload_calls
    rw [hold, hup]
    simp
  · rw [process_fail_fst g exts cutoff st f mt hext hmt hcut (Or.inl hup)]
    exact lookupF_eraseF_self st.1 (basename f.path)

/-- Witness for `c10_eviction_survives_remote_failures` against
`gw_all_fail`, whose unlink, delete and upload all fail. -/
theorem c10_witness :
    gw_all_fail.removeOk "old" = false ∧ gw_all_fail.deleteOk "old" = false
    ∧ gw_all_fail.uploadResp "d/x.txt" = .httpError
    ∧ lookupF (process_one_file gw_all_fail none 6 ([("x.txt", "old")], [])
        ⟨"d/x.txt", some 10⟩).1 (basename "d/x.txt") = none := by
  have h := c10_eviction_survives_remote_failures gw_all_fail none 6
      ([("x.txt", "old")], []) ⟨"d/x.txt", some 10⟩ 10 "old" (by decide) rfl
      (by decide) (by decide) (by decide) (by decide) (by decide)
  exact ⟨by decide, by decide, by decide, h.2.2.2⟩

/-! ## String lemmas for the extension filter -/

theorem rlastIdx_eq_none (cs : List Char) (c : Char) :
    rlastIdx cs c = none ↔ c ∉ cs := by
  induction cs with
  | nil => simp [rlastIdx]
  | cons x xs ih =>
    rcases h : rlastIdx xs c with _ | j
    · have hx : c ∉ xs := ih.mp h
      by_cases hxc : x = c
      · simp [rlastIdx, h, hxc, List.mem_cons]
      · have hcx : c ≠ x := fun he => hxc he.symm
        simp [rlastIdx, h, hxc, List.mem_cons, hx, hcx]
    · have hx : c ∈ xs := by
        by_contra hc
        rw [ih.mpr hc] at h
        cases h
      simp [rlastIdx, h, List.mem_cons, hx]

theorem rlastIdx_append_notin (l r : List Char) (c : Char) (h : c ∉ r) :
    rlastIdx (l ++ c :: r) c = some l.length := by
  induction l with
  | nil => simp [rlastIdx, (rlastIdx_eq_none r c).mpr h]
  | cons x xs ih => simp [rlastIdx, ih]

theorem rlastIdx_append_right_notin (l r : List Char) (c : Char) (h : c ∉ r) :
    rlastIdx (l ++ r) c = rlastIdx l c := by
  induction l with
  | nil => simp [rlastIdx, (rlastIdx_eq_none r c).mpr h]
  | cons x xs ih => simp [rlastIdx, ih]

theorem rlastIdx_append_mem_right (l m : List Char) (c : Char) (j : Nat)
    (h : rlastIdx m c = some j) :
    rlastIdx (l ++ m) c = some (l.length + j) := by
  induction l with
  | nil => simpa using h
  | cons x xs ih =>
    simp only [List.cons_append, rlastIdx, List.append_eq, ih, List.length_cons]
    congr 1
    omega

theorem rlastIdx_lt_length (cs : List Char) (c : Char) (j : Nat)
    (h : rlastIdx cs c = some j) : j < cs.length := by
  induction cs generalizing j with
  | nil => cases h
  | cons x xs ih =>
    rcases h2 : rlastIdx xs c with _ | j'
    · simp only [rlastIdx, h2] at h
      by_cases hxc : x = c
      · rw [if_pos hxc] at h
        cases h
        simp
      · rw [if_neg hxc] at h
        cases h
    · simp only [rlastIdx, h2] at h
      cases h
      have := ih j' h2
      simp only [List.length_cons]
      omega

theorem exists_rsplit (c : Char) (cs : List Char) (h : c ∈ cs) :
    ∃ l r, cs = l ++ c :: r ∧ c ∉ r := by
  induction cs with
  | nil => cases h
  | cons x xs ih =>
    by_cases hx : c ∈ xs
    · obtain ⟨l, r, hcs, hr⟩ := ih hx
      exact ⟨x :: l, r, by rw [hcs]; rfl, hr⟩
    · have hcx : c = x := by
        rcases List.mem_cons.mp h with h1 | h2
        · exact h1
        · exact absurd h2 hx
      exact ⟨[], xs, by simp [hcx], hx⟩

theorem takeWhile_all_of (p : Char → Bool) (xs : List Char)
    (h : ∀ x ∈ xs, p x = true) : xs.takeWhile p = xs := by
  induction xs with
  | nil => rfl
  | cons x xs ih =>
    rw [List.takeWhile_cons_of_pos (h x (List.mem_cons_self x xs))]
    rw [ih (fun y hy => h y (List.mem_cons_of_mem x hy))]

theorem takeWhile_append_stop (p : Char → Bool) (xs : List Char) (c : Char)
    (ys : List Char) (h : ∀ x ∈ xs, p x = true) (hc : p c = false) :
    (xs ++ c :: ys).takeWhile p = xs := by
  induction xs with
  | nil =>
    simp only [List.nil_append]
    exact List.takeWhile_cons_of_neg (by simp [hc])
  | cons x xs ih =>
    rw [List.cons_append,
      List.takeWhile_cons_of_pos (h x (List.mem_cons_self x xs))]
    rw [ih (fun y hy => h y (List.mem_cons_of_mem x hy))]

theorem lastComponent_of_no_slash (cs : List Char) (h : '/' ∉ cs) :
    lastComponent cs = cs := by
  have hall : ∀ x ∈ cs.reverse, (fun c => decide (c ≠ '/')) x = true := by
    intro x hx
    rw [List.mem_reverse] at hx
    exact decide_eq_true (fun he => h (he ▸ hx))
  unfold lastComponent
  rw [takeWhile_all_of _ _ hall, List.reverse_reverse]

theorem lastComponent_append (l r : List Char) (h : '/' ∉ r) :
    lastComponent (l ++ '/' :: r) = r := by
  have hall : ∀ x ∈ r.reverse, (fun c => decide (c ≠ '/')) x = true := by
    intro x hx
    rw [List.mem_reverse] at hx
    exact decide_eq_true (fun he => h (he ▸ hx))
  have hrw : (l ++ '/' :: r).reverse = r.reverse ++ '/' :: l.reverse := by
    simp
  unfold lastComponent
  rw [hrw, takeWhile_append_stop _ _ _ _ hall (by simp), List.reverse_reverse]

theorem afterLastDot_append (b a : List Char) (h : '.' ∉ a) :
    afterLastDot (b ++ '.' :: a) = a := by
  have hall : ∀ x ∈ a.reverse, (fun c => decide (c ≠ '.')) x = true := by
    intro x hx
    rw [List.mem_reverse] at hx
    exact decide_eq_true (fun he => h (he ▸ hx))
  have hrw : (b ++ '.' :: a).reverse = a.reverse ++ '.' :: b.reverse := by
    simp
  unfold afterLastDot
  rw [hrw, takeWhile_append_stop _ _ _ _ hall (by simp), List.reverse_reverse]

theorem lastComponent_mem (cs : List Char) (x : Char)
    (hx : x ∈ lastComponent cs) : x ∈ cs := by
  unfold lastComponent at hx
  rw [List.mem_reverse] at hx
  have hsub := List.takeWhile_sublist (l := cs.reverse) (fun c => decide (c ≠ '/'))
  have := hsub.subset hx
  rwa [List.mem_reverse] at this

theorem drop_length_cons_append (l : List Char) (c : Char) (r : List Char) :
    (l ++ c :: r).drop (l.length + 1) = r := by
  induction l with
  | nil => simp
  | cons x xs ih => simp

theorem any_ne_dot_eq_not_all (l : List Char) :
    l.any (fun c => decide (c ≠ '.')) = ! l.all (fun c => decide (c = '.')) := by
  induction l with
  | nil => rfl
  | cons x xs ih =>
    rw [List.any_cons, List.all_cons, ih, Bool.not_and]
    congr 1
    exact decide_not (p := x = '.')

/-- Bridge between the source's loop condition (some character strictly
between the component start and the last dot is not a dot) and the amended
specification's phrasing (not all characters before the last dot are dots). -/
theorem dot_if_eq (s d : Nat) (hsd : s ≤ d) (pre : List Char) (x : String) :
    (if s ≤ d ∧ pre.any (fun c => decide (c ≠ '.')) = true then x else "")
    = (if pre.all (fun c => decide (c = '.')) = true then "" else x) := by
  by_cases hall : pre.all (fun c => decide (c = '.')) = true
  · have hany : pre.any (fun c => decide (c ≠ '.')) = false := by
      rw [any_ne_dot_eq_not_all, hall]
      rfl
    rw [if_pos hall, if_neg]
    rintro ⟨-, h2⟩
    rw [hany] at h2
    cases h2
  · have hallf : pre.all (fun c => decide (c = '.')) = false := by
      cases hq : pre.all (fun c => decide (c = '.'))
      · rfl
      · exact absurd hq hall
    have hany : pre.any (fun c => decide (c ≠ '.')) = true := by
      rw [any_ne_dot_eq_not_all, hallf]
      rfl
    rw [if_neg hall, if_pos ⟨hsd, hany⟩]

theorem splitext_ext_eq_spec_amended (p : String) :
    splitext_ext p = spec_extension_amended p := by
  simp only [splitext_ext, spec_extension_amended]
  generalize p.data = cs
  by_cases hs : '/' ∈ cs
  · obtain ⟨l, r, rfl, hnr⟩ := exists_rsplit '/' cs hs
    have hslash : rlastIdx (l ++ '/' :: r) '/' = some l.length :=
      rlastIdx_append_notin l r '/' hnr
    have hcomp : lastComponent (l ++ '/' :: r) = r := lastComponent_append l r hnr
    by_cases hdr : '.' ∈ r
    · obtain ⟨rb, ra, hreq, hnra⟩ := exists_rsplit '.' r hdr
      subst hreq
      have hdot : rlastIdx (l ++ '/' :: (rb ++ '.' :: ra)) '.'
          = some (l.length + (rb.length + 1)) := by
        have h1 : rlastIdx ('/' :: (rb ++ '.' :: ra)) '.' = some (rb.length + 1) := by
          simp [rlastIdx, rlastIdx_append_notin rb ra '.' hnra]
        exact rlastIdx_append_mem_right l ('/' :: (rb ++ '.' :: ra)) '.' (rb.length + 1) h1
      have hassoc : l ++ '/' :: (rb ++ '.' :: ra) = (l ++ '/' :: rb) ++ '.' :: ra := by
        simp
      have hlen2 : (l ++ '/' :: rb).length = l.length + (rb.length + 1) := by
        simp
      have hdrop2 : List.drop (l.length + (rb.length + 1) + 1)
          (l ++ '/' :: (rb ++ '.' :: ra)) = ra := by
        rw [hassoc, show l.length + (rb.length + 1) + 1 = (l ++ '/' :: rb).length + 1 from by
          rw [hlen2]]
        exact drop_length_cons_append (l ++ '/' :: rb) '.' ra
      simp only [hdot, hslash, hcomp]
      rw [drop_length_cons_append l '/' (rb ++ '.' :: ra)]
      rw [show l.length + (rb.length + 1) - (l.length + 1) = rb.length from by omega]
      rw [List.take_left rb ('.' :: ra)]
      rw [hdrop2]
      rw [if_pos hdr]
      rw [afterLastDot_append rb ra hnra]
      rw [show (rb ++ '.' :: ra).length - ra.length - 1 = rb.length from by
        simp only [List.length_append, List.length_cons]; omega]
      rw [List.take_left rb ('.' :: ra)]
      exact dot_if_eq (l.length + 1) (l.length + (rb.length + 1)) (by omega) rb _
    · have hnm : '.' ∉ ('/' :: r) := by
        intro hmem
        rcases List.mem_cons.mp hmem with h1 | h2
        · exact absurd h1 (by decide)
        · exact hdr h2
      have hdotl : rlastIdx (l ++ '/' :: r) '.' = rlastIdx l '.' :=
        rlastIdx_append_right_notin l ('/' :: r) '.' hnm
      rcases hld : rlastIdx l '.' with _ | dl
      · simp only [hdotl, hld, hcomp]
        rw [if_neg hdr]
      · have hlt := rlastIdx_lt_length l '.' dl hld
        simp only [hdotl, hld, hcomp, hslash]
        rw [if_neg hdr]
        split_ifs with hA
        · exact absurd hA.1 (by omega)
        · rfl
  · have hnone : rlastIdx cs '/' = none := (rlastIdx_eq_none cs '/').mpr hs
    have hcomp : lastComponent cs = cs := lastComponent_of_no_slash cs hs
    rcases hdm : rlastIdx cs '.' with _ | d
    · have hdn : '.' ∉ cs := (rlastIdx_eq_none cs '.').mp hdm
      simp only [hdm, hcomp]
      rw [if_neg hdn]
    · have hmem : '.' ∈ cs := by
        by_contra hc
        rw [(rlastIdx_eq_none cs '.').mpr hc] at hdm
        cases hdm
      obtain ⟨b, a, hceq, hna⟩ := exists_rsplit '.' cs hmem
      subst hceq
      have hdb : rlastIdx (b ++ '.' :: a) '.' = some b.length :=
        rlastIdx_append_notin b a '.' hna
      rw [hdm] at hdb
      have hd : d = b.length := Option.some.inj hdb
      subst hd
      simp only [hdm, hnone, hcomp]
      simp only [List.drop_zero, Nat.sub_zero, List.take_left]
      rw [drop_length_cons_append b '.' a]
      rw [if_pos hmem]
      rw [afterLastDot_append b a hna]
      simp only [show (b ++ '.' :: a).length - a.length - 1 = b.length from by
        simp only [List.length_append, List.length_cons]; omega]
      simp only [List.take_left]
      exact dot_if_eq 0 b.length (Nat.zero_le _) b _

/-! ## Claim C8 — the extension filter -/

/-- Claim C8 is false as stated: for the hidden file `dir/.txt` the claim's
extension (text after the final dot of the last component) is `txt`, which
is in the non-empty allow-list, so the claim says the file is not skipped;
but `os.path.splitext` gives a component whose only pre-dot characters are
dots no extension, so `has_allowed_extension` rejects it. -/
theorem c8_counterexample :
    has_allowed_extension (some ["txt"]) "dir/.txt" = false
    ∧ spec_extension "dir/.txt" = "txt"
    ∧ "txt" ∈ ["txt"] ∧ (["txt"] : List String) ≠ [] := by
  decide

/-- Claim C8, amended: a file is skipped exactly when an allow-list is
configured (`ALLOWED_EXTS` is not `None`) and the file's lowercase
`splitext` extension — the text after the final dot of the last path
component, except that a component whose characters before that dot are all
dots has the empty extension — is not in the list.  With no configured list
every file is allowed; note that a configured-but-blank list (for example
the environment value `","`) is `some []` and skips every file. -/
theorem c8_skip_iff_amended (exts : Option (List String)) (p : String) :
    has_allowed_extension exts p = false ↔
      ∃ l, exts = some l ∧ spec_extension_amended p ∉ l := by
  cases exts with
  | none => simp [has_allowed_extension]
  | some l =>
    simp [has_allowed_extension, ← splitext_ext_eq_spec_amended]

end OpenWebUISync
